import Mathlib

/-!
Shallow embedding of the per-line ingestion pipeline of
prometheus-nginxlog-exporter (`src/main.go`): label-schema construction
(`Metrics.Init`), label-vector setup and the per-line processing loop of the
ingestor goroutine (label defaults, route matching, relabeling, metric
dispatch).

External collaborators (the gonx line parser, the prometheus client library,
the tail adapter) are modelled abstractly, following the spec's interface
description: a parsed line is a field-name/value mapping (`Entry`), the typed
numeric accessor is a parameter `pf : String → Option ℚ` standing for
`strconv.ParseFloat`, and a metric mutation is recorded as a `MetricOp` event
instead of mutating a vector in place.  Go panics (out-of-range slice
indexing) are modelled as `Option.none`.
-/

namespace NginxLog

/-- A parsed log line, as produced by the external line parser: a
field-name → value mapping (`gonx.Entry`). -/
def Entry : Type := List (String × String)

/-- `entry.Field(name)`: the value of a named field, `none` when the field is
absent (gonx returns an error in that case). -/
def Entry.field (e : Entry) (name : String) : Option String :=
  (e.find? (fun p => p.1 == name)).map (fun p => p.2)

/-- `entry.FloatField(name)`: look the field up, then parse it as a number.
The numeric parse (`strconv.ParseFloat`) is external and is passed in as
`pf`; the accessor fails when the field is absent or `pf` fails. -/
def Entry.floatField (pf : String → Option ℚ) (e : Entry) (name : String) :
    Option ℚ :=
  match e.field name with
  | some v => pf v
  | none => none

/-- Helper for `stringsSplit`: split a character list at every occurrence of
`sep`; always returns at least one (possibly empty) word. -/
def splitList (sep : Char) : List Char → List (List Char)
  | [] => [[]]
  | c :: cs =>
    match splitList sep cs with
    | [] => [[]]
    | w :: ws => if c = sep then [] :: w :: ws else (c :: w) :: ws

/-- Go's `strings.Split(s, sep)` for a single-character separator, as used by
the ingestor (`strings.Split(request, " ")`): splits at every occurrence of
the separator and never returns an empty slice (`Split("", " ") = [""]`). -/
def stringsSplit (s : String) (sep : Char) : List String :=
  (splitList sep s.data).map (fun cs => String.mk cs)

/-- One relabel rule (`config.RelabelConfig`): target label, source field,
and the optional whitelist (`WhitelistExists` / `WhitelistMap`). -/
structure RelabelConfig where
  targetLabel : String
  sourceValue : String
  whitelistExists : Bool
  whitelist : List String

/-- The slice of a `config.NamespaceConfig` the ingestion pipeline reads:
ordered static label names/values, relabel rules, and the compiled route
rules (`Routes` and `CompiledRouteRegexps` are parallel lists; a compiled
regexp is modelled as a `String → Bool` matcher). -/
structure NamespaceConfig where
  name : String
  orderedLabelNames : List String
  orderedLabelValues : List String
  relabelConfigs : List RelabelConfig
  routes : List String
  compiledRouteRegexps : List (String → Bool)

/-- Modelled from the spec: `config.NamespaceConfig.HasRouteMatchers` lives in
the `config` package, which is not part of the provided source; the spec says
route classification applies "only if ≥1 route rule configured", and a route
rule is a (pattern, name) pair, so this holds exactly when the route list is
non-empty. -/
def NamespaceConfig.hasRouteMatchers (cfg : NamespaceConfig) : Bool :=
  !cfg.routes.isEmpty

/-- `Metrics.Init`: the ordered label-name list under which all six metric
vectors are registered: `["method", "status"]`, then `"request_uri"` when
route matchers are configured, then the static label names, then the relabel
target labels (appended in declared order). -/
def metricLabels (cfg : NamespaceConfig) : List String :=
  let labels := ["method", "status"]
  let labels := if cfg.hasRouteMatchers then labels ++ ["request_uri"] else labels
  let labels := labels ++ cfg.orderedLabelNames
  labels ++ cfg.relabelConfigs.map (fun r => r.targetLabel)

/-- `intrinsicLabelCount` in the ingestor goroutine: 2, plus 1 when route
matchers are configured. -/
def intrinsicLabelCount (cfg : NamespaceConfig) : Nat :=
  if cfg.hasRouteMatchers then 2 + 1 else 2

/-- `totalLabelCount := len(staticLabelValues) + intrinsicLabelCount +
len(nsCfg.RelabelConfigs)`. -/
def totalLabelCount (cfg : NamespaceConfig) : Nat :=
  cfg.orderedLabelValues.length + intrinsicLabelCount cfg +
    cfg.relabelConfigs.length

/-- `relabelLabelOffset := len(staticLabelValues) + intrinsicLabelCount`. -/
def relabelLabelOffset (cfg : NamespaceConfig) : Nat :=
  cfg.orderedLabelValues.length + intrinsicLabelCount cfg

/-- The static-label fill loop:
`for i := range staticLabelValues { labelValues[i+intrinsicLabelCount] = staticLabelValues[i] }`,
written with the running index `off = i + intrinsicLabelCount`. -/
def fillStatic (lv : List String) (off : Nat) : List String → List String
  | [] => lv
  | v :: vs => fillStatic (lv.set off v) (off + 1) vs

/-- `labelValues := make([]string, totalLabelCount)` followed by the static
fill; this is the label-vector buffer the ingestor allocates once, before the
first line is processed. -/
def initialLabelValues (cfg : NamespaceConfig) : List String :=
  fillStatic (List.replicate (totalLabelCount cfg) "")
    (intrinsicLabelCount cfg) cfg.orderedLabelValues

/-- The route-matching loop over the parallel lists
`CompiledRouteRegexps` / `Routes`: evaluate patterns in order against `f[1]`
(the second token of the request field); on the first match return that
rule's route name; when no pattern matches return `""` (the slot was reset
before the loop).  `none` models a Go panic: `f[1]` is read inside each
iteration, so a one-token request panics as soon as there is an iteration,
and `Routes[i]` panics when the routes list is too short. -/
def firstRoute (f : List String) :
    List (String → Bool) → List String → Option String
  | [], _ => some ""
  | r :: rs, routes =>
    match f.get? 1 with
    | none => none
    | some path =>
      if r path then routes.head?
      else firstRoute f rs routes.tail

/-- One relabel rule's resolved value:
`if _, ok := c.WhitelistMap[str]; c.WhitelistExists && !ok { str = "other" }`,
with `""` when the source field is absent. -/
def resolveRelabel (e : Entry) (c : RelabelConfig) : String :=
  match e.field c.sourceValue with
  | some str =>
    if c.whitelistExists && !(c.whitelist.contains str) then "other" else str
  | none => ""

/-- The relabel loop:
`for i := range RelabelConfigs { labelValues[i+relabelLabelOffset] = resolved }`,
written with the running index `off = i + relabelLabelOffset`. -/
def applyRelabels (e : Entry) (lv : List String) (off : Nat) :
    List RelabelConfig → List String
  | [] => lv
  | c :: cs => applyRelabels e (lv.set off (resolveRelabel e c)) (off + 1) cs

/-- The label-resolution part of the per-line loop body (everything between a
successful parse and the metric dispatch), acting on the persistent
`labelValues` buffer.  `none` models a Go panic inside the loop body. -/
def resolveLabels (cfg : NamespaceConfig) (e : Entry) (labelValues : List String) :
    Option (List String) :=
  let lv := (labelValues.set 0 "UNKNOWN").set 1 "0"
  let afterRequest : Option (List String) :=
    match e.field "request" with
    | some request =>
      match stringsSplit request ' ' with
      | [] => none
      | m :: rest =>
        let lv := lv.set 0 m
        if cfg.hasRouteMatchers then
          let lv := lv.set 2 ""
          match firstRoute (m :: rest) cfg.compiledRouteRegexps cfg.routes with
          | some r => some (lv.set 2 r)
          | none => none
        else some lv
    | none => some lv
  match afterRequest with
  | none => none
  | some lv =>
    let lv :=
      match e.field "status" with
      | some s => lv.set 1 s
      | none => lv
    some (applyRelabels e lv (relabelLabelOffset cfg) cfg.relabelConfigs)

/-- The six metric vectors of the `Metrics` struct. -/
inductive Metric where
  | countTotal
  | bytesTotal
  | upstreamSeconds
  | upstreamSecondsHist
  | responseSeconds
  | responseSecondsHist
deriving DecidableEq, Repr

/-- One metric mutation: the vector touched, the label values passed to
`WithLabelValues`, and the amount (`Inc` carries 1; `Add`/`Observe` carry the
parsed number). -/
structure MetricOp where
  metric : Metric
  labels : List String
  value : ℚ
deriving DecidableEq, Repr

/-- The dispatch section of the loop body: increment `countTotal`
unconditionally; each numeric field that parses drives its own mutation(s),
independently of the others. -/
def dispatch (pf : String → Option ℚ) (e : Entry) (lv : List String) :
    List MetricOp :=
  [⟨Metric.countTotal, lv, 1⟩]
    ++ (match Entry.floatField pf e "body_bytes_sent" with
        | some bytes => [⟨Metric.bytesTotal, lv, bytes⟩]
        | none => [])
    ++ (match Entry.floatField pf e "upstream_response_time" with
        | some t => [⟨Metric.upstreamSeconds, lv, t⟩,
                     ⟨Metric.upstreamSecondsHist, lv, t⟩]
        | none => [])
    ++ (match Entry.floatField pf e "request_time" with
        | some t => [⟨Metric.responseSeconds, lv, t⟩,
                     ⟨Metric.responseSecondsHist, lv, t⟩]
        | none => [])

/-- One iteration of `for line := range t.Lines`: the parse result of the
line is the input (`Except.error` when `parser.ParseString` failed, in which
case the goroutine logs and `continue`s, mutating nothing).  Returns the
label buffer after the iteration together with the metric mutations the
iteration performed; `none` models a panic that kills the goroutine. -/
def processLine (cfg : NamespaceConfig) (pf : String → Option ℚ)
    (lv : List String) (parsed : Except String Entry) :
    Option (List String × List MetricOp) :=
  match parsed with
  | Except.error _ => some (lv, [])
  | Except.ok e =>
    match resolveLabels cfg e lv with
    | none => none
    | some lv₂ => some (lv₂, dispatch pf e lv₂)

/-- The ingestor loop run over a finite prefix of the line stream, starting
from buffer `lv`: the metric mutations emitted, and whether the goroutine
panicked (mutations already made before a panic are kept). -/
def runFrom (cfg : NamespaceConfig) (pf : String → Option ℚ)
    (lv : List String) : List (Except String Entry) → List MetricOp × Bool
  | [] => ([], false)
  | l :: ls =>
    match processLine cfg pf lv l with
    | none => ([], true)
    | some (lv₂, newOps) =>
      let rest := runFrom cfg pf lv₂ ls
      (newOps ++ rest.1, rest.2)

/-- A whole ingestor goroutine on a finite prefix of its line stream:
allocate and statically fill the buffer, then loop. -/
def run (cfg : NamespaceConfig) (pf : String → Option ℚ)
    (lines : List (Except String Entry)) : List MetricOp × Bool :=
  runFrom cfg pf (initialLabelValues cfg) lines

end NginxLog

namespace NginxLog

/-! ### Concrete instances used to exercise the theorems -/

/-- A numeric-field parser that fails on every value; used in examples where
the numeric dispatches are irrelevant. -/
def pfNone : String → Option ℚ := fun _ => none

/-- One route rule whose pattern matches every path; no statics, no relabels. -/
def cfgStaleRoute : NamespaceConfig :=
  { name := "ns", orderedLabelNames := [], orderedLabelValues := [],
    relabelConfigs := [], routes := ["api"],
    compiledRouteRegexps := [fun _ => true] }

/-- One route rule whose pattern matches every path; used to exhibit the
`f[1]` out-of-range panic. -/
def cfgPanic : NamespaceConfig :=
  { name := "ns", orderedLabelNames := [], orderedLabelValues := [],
    relabelConfigs := [], routes := ["api"],
    compiledRouteRegexps := [fun _ => true] }

/-- A namespace using every feature: one static label, one whitelisted
relabel rule, one route rule. -/
def cfgArity : NamespaceConfig :=
  { name := "ns", orderedLabelNames := ["app"], orderedLabelValues := ["myapp"],
    relabelConfigs := [⟨"user", "remote_user", true, ["a", "b"]⟩],
    routes := ["api"], compiledRouteRegexps := [fun _ => true] }

/-- One whitelisted relabel rule only. -/
def cfgRelabel : NamespaceConfig :=
  { name := "ns", orderedLabelNames := [], orderedLabelValues := [],
    relabelConfigs := [⟨"user", "remote_user", true, ["a", "b"]⟩],
    routes := [], compiledRouteRegexps := [] }

/-- Two route rules whose patterns both match every path; the declared order
decides which one wins. -/
def cfgRoutes : NamespaceConfig :=
  { name := "ns", orderedLabelNames := [], orderedLabelValues := [],
    relabelConfigs := [], routes := ["api", "root"],
    compiledRouteRegexps := [fun _ => true, fun _ => true] }

/-- The minimal namespace: no routes, no statics, no relabels. -/
def cfgPlain : NamespaceConfig :=
  { name := "ns", orderedLabelNames := [], orderedLabelValues := [],
    relabelConfigs := [], routes := [], compiledRouteRegexps := [] }

/-- One static label only. -/
def cfgStatic : NamespaceConfig :=
  { name := "ns", orderedLabelNames := ["app"], orderedLabelValues := ["myapp"],
    relabelConfigs := [], routes := [], compiledRouteRegexps := [] }

/-! ### Helper lemmas about the indexed-write loops -/

theorem fillStatic_length (vs : List String) :
    ∀ (lv : List String) (off : Nat), (fillStatic lv off vs).length = lv.length := by
  induction vs with
  | nil => intro lv off; rfl
  | cons v vs ih =>
    intro lv off
    simp only [fillStatic, ih, List.length_set]

theorem fillStatic_getElem?_lt (vs : List String) :
    ∀ (lv : List String) (off j : Nat), j < off →
      (fillStatic lv off vs)[j]? = lv[j]? := by
  induction vs with
  | nil => intro lv off j _; rfl
  | cons v vs ih =>
    intro lv off j hj
    rw [fillStatic, ih (lv.set off v) (off + 1) j (Nat.lt_succ_of_lt hj),
      List.getElem?_set_ne (Nat.ne_of_gt hj)]

theorem fillStatic_getElem?_at (vs : List String) :
    ∀ (lv : List String) (off j : Nat), j < vs.length →
      off + vs.length ≤ lv.length →
      (fillStatic lv off vs)[off + j]? = vs[j]? := by
  induction vs with
  | nil => intro lv off j hj _; exact absurd hj (Nat.not_lt_zero j)
  | cons v vs ih =>
    intro lv off j hj hlen
    match j with
    | 0 =>
      rw [fillStatic, fillStatic_getElem?_lt vs (lv.set off v) (off + 1) (off + 0)
        (by omega)]
      have hoff : off < lv.length := by simp at hlen; omega
      simp [List.getElem?_set_eq_of_lt v hoff]
    | j + 1 =>
      have : off + (j + 1) = (off + 1) + j := by omega
      rw [fillStatic, this, ih (lv.set off v) (off + 1) j (by simpa using hj)
        (by simp at hlen ⊢; omega)]
      simp

theorem applyRelabels_length (cs : List RelabelConfig) :
    ∀ (e : Entry) (lv : List String) (off : Nat),
      (applyRelabels e lv off cs).length = lv.length := by
  induction cs with
  | nil => intro e lv off; rfl
  | cons c cs ih =>
    intro e lv off
    simp only [applyRelabels, ih, List.length_set]

theorem applyRelabels_getElem?_lt (cs : List RelabelConfig) :
    ∀ (e : Entry) (lv : List String) (off j : Nat), j < off →
      (applyRelabels e lv off cs)[j]? = lv[j]? := by
  induction cs with
  | nil => intro e lv off j _; rfl
  | cons c cs ih =>
    intro e lv off j hj
    rw [applyRelabels, ih e _ (off + 1) j (Nat.lt_succ_of_lt hj),
      List.getElem?_set_ne (Nat.ne_of_gt hj)]

theorem applyRelabels_getElem?_at (cs : List RelabelConfig) :
    ∀ (e : Entry) (lv : List String) (off j : Nat) (hj : j < cs.length),
      off + cs.length ≤ lv.length →
      (applyRelabels e lv off cs)[off + j]? =
        some (resolveRelabel e (cs.get ⟨j, hj⟩)) := by
  induction cs with
  | nil => intro e lv off j hj _; exact absurd hj (Nat.not_lt_zero j)
  | cons c cs ih =>
    intro e lv off j hj hlen
    match j with
    | 0 =>
      rw [applyRelabels, applyRelabels_getElem?_lt cs e _ (off + 1) (off + 0)
        (by omega)]
      have hoff : off < lv.length := by simp at hlen; omega
      simp [List.getElem?_set_eq_of_lt _ hoff]
    | j + 1 =>
      have : off + (j + 1) = (off + 1) + j := by omega
      rw [applyRelabels, this, ih e _ (off + 1) j (by simpa using hj)
        (by simp at hlen ⊢; omega)]
      rfl

theorem dispatch_labels (pf : String → Option ℚ) (e : Entry) (lv : List String) :
    ∀ op ∈ dispatch pf e lv, op.labels = lv := by
  intro op hop
  unfold dispatch at hop
  rcases List.mem_append.mp hop with h | h
  · rcases List.mem_append.mp h with h | h
    · rcases List.mem_append.mp h with h | h
      · simp at h; subst h; rfl
      · split at h
        · simp at h; subst h; rfl
        · simp at h
    · split at h
      · rcases List.mem_pair.mp h with rfl | rfl <;> rfl
      · simp at h
  · split at h
    · rcases List.mem_pair.mp h with rfl | rfl <;> rfl
    · simp at h

end NginxLog

namespace NginxLog

/-! ### Small arithmetic facts about the label-layout offsets -/

theorem intrinsic_ge_two (cfg : NamespaceConfig) : 2 ≤ intrinsicLabelCount cfg := by
  unfold intrinsicLabelCount; split <;> omega

theorem intrinsic_of_route (cfg : NamespaceConfig)
    (h : cfg.hasRouteMatchers = true) : intrinsicLabelCount cfg = 3 := by
  simp [intrinsicLabelCount, h]

theorem intrinsic_of_not_route (cfg : NamespaceConfig)
    (h : cfg.hasRouteMatchers = false) : intrinsicLabelCount cfg = 2 := by
  simp [intrinsicLabelCount, h]

theorem offset_ge_intrinsic (cfg : NamespaceConfig) :
    intrinsicLabelCount cfg ≤ relabelLabelOffset cfg := by
  unfold relabelLabelOffset; omega

/-! ### Structure of a successful `resolveLabels` run -/

/-- Case analysis of `resolveLabels`: every successful run factors as the
relabel loop applied (after the optional status write at slot 1) to a `base`
vector whose slots 0/1/2 hold the documented intermediate values and whose
other slots are untouched. -/
theorem resolveLabels_shape (cfg : NamespaceConfig) (e : Entry)
    (lv lv' : List String) (h : resolveLabels cfg e lv = some lv') :
    ∃ base : List String,
      lv' = applyRelabels e
          (match e.field "status" with
           | some s => base.set 1 s
           | none => base)
          (relabelLabelOffset cfg) cfg.relabelConfigs ∧
      base.length = lv.length ∧
      (∀ j, 3 ≤ j → base[j]? = lv[j]?) ∧
      (cfg.hasRouteMatchers = false → base[2]? = lv[2]?) ∧
      (e.field "request" = none → 0 < lv.length → base[0]? = some "UNKNOWN") ∧
      (∀ req, e.field "request" = some req → 0 < lv.length →
        base[0]? = (stringsSplit req ' ').head?) ∧
      (1 < lv.length → base[1]? = some "0") ∧
      (cfg.hasRouteMatchers = true → ∀ req, e.field "request" = some req →
        2 < lv.length →
        base[2]? = firstRoute (stringsSplit req ' ') cfg.compiledRouteRegexps cfg.routes) := by
  unfold resolveLabels at h
  cases hreq : Entry.field e "request" with
  | none =>
    simp only [hreq, Option.some.injEq] at h
    refine ⟨(lv.set 0 "UNKNOWN").set 1 "0", h.symm, by simp, ?_, ?_, ?_, ?_, ?_, ?_⟩
    · intro j hj
      rw [List.getElem?_set_ne (by omega), List.getElem?_set_ne (by omega)]
    · intro _
      rw [List.getElem?_set_ne (by omega), List.getElem?_set_ne (by omega)]
    · intro _ hlen
      rw [List.getElem?_set_ne (by omega),
        List.getElem?_set_eq_of_lt _ (by omega)]
    · intro req hreq' _
      exact Option.noConfusion hreq'
    · intro hlen
      rw [List.getElem?_set_eq_of_lt _ (by simpa using hlen)]
    · intro _ req hreq' _
      exact Option.noConfusion hreq'
  | some req =>
    simp only [hreq] at h
    cases hsplit : stringsSplit req ' ' with
    | nil =>
      simp only [hsplit] at h
      exact Option.noConfusion h
    | cons m rest =>
      simp only [hsplit] at h
      cases hroute : cfg.hasRouteMatchers <;>
        simp only [hroute, Bool.false_eq_true, if_false, if_true] at h
      · simp only [Option.some.injEq] at h
        refine ⟨((lv.set 0 "UNKNOWN").set 1 "0").set 0 m, h.symm, by simp,
          ?_, ?_, ?_, ?_, ?_, ?_⟩
        · intro j hj
          rw [List.getElem?_set_ne (by omega), List.getElem?_set_ne (by omega),
            List.getElem?_set_ne (by omega)]
        · intro _
          rw [List.getElem?_set_ne (by omega), List.getElem?_set_ne (by omega),
            List.getElem?_set_ne (by omega)]
        · intro habs
          exact Option.noConfusion habs
        · intro req' hreq' hlen
          obtain rfl := Option.some.inj hreq'
          rw [hsplit, List.getElem?_set_eq_of_lt _ (by simpa using hlen)]
          rfl
        · intro hlen
          rw [List.getElem?_set_ne (by omega),
            List.getElem?_set_eq_of_lt _ (by simpa using hlen)]
        · intro hr
          exact Bool.noConfusion hr
      · cases hfr : firstRoute (m :: rest) cfg.compiledRouteRegexps cfg.routes with
        | none =>
          simp only [hfr] at h
          exact Option.noConfusion h
        | some r =>
          simp only [hfr, Option.some.injEq] at h
          refine ⟨((((lv.set 0 "UNKNOWN").set 1 "0").set 0 m).set 2 "").set 2 r,
            h.symm, by simp, ?_, ?_, ?_, ?_, ?_, ?_⟩
          · intro j hj
            rw [List.getElem?_set_ne (by omega), List.getElem?_set_ne (by omega),
              List.getElem?_set_ne (by omega), List.getElem?_set_ne (by omega),
              List.getElem?_set_ne (by omega)]
          · intro hr
            exact Bool.noConfusion hr
          · intro habs
            exact Option.noConfusion habs
          · intro req' hreq' hlen
            obtain rfl := Option.some.inj hreq'
            rw [List.getElem?_set_ne (by omega), List.getElem?_set_ne (by omega),
              hsplit, List.getElem?_set_eq_of_lt _ (by simpa using hlen)]
            rfl
          · intro hlen
            rw [List.getElem?_set_ne (by omega), List.getElem?_set_ne (by omega),
              List.getElem?_set_ne (by omega),
              List.getElem?_set_eq_of_lt _ (by simpa using hlen)]
          · intro _ req' hreq' hlen
            obtain rfl := Option.some.inj hreq'
            rw [hsplit, hfr, List.getElem?_set_eq_of_lt _ (by simpa using hlen)]

end NginxLog

namespace NginxLog

/-! ### Per-slot consequences for a successful `resolveLabels` run -/

theorem resolveLabels_length (cfg : NamespaceConfig) (e : Entry)
    (lv lv' : List String) (h : resolveLabels cfg e lv = some lv') :
    lv'.length = lv.length := by
  obtain ⟨base, rfl, hblen, -, -, -, -, -, -⟩ := resolveLabels_shape cfg e lv lv' h
  cases hst : Entry.field e "status" <;>
    simp [hst, applyRelabels_length, List.length_set, hblen]

theorem resolveLabels_frame (cfg : NamespaceConfig) (e : Entry)
    (lv lv' : List String) (h : resolveLabels cfg e lv = some lv')
    (j : Nat) (hj1 : intrinsicLabelCount cfg ≤ j) (hj2 : j < relabelLabelOffset cfg) :
    lv'[j]? = lv[j]? := by
  obtain ⟨base, rfl, hblen, hge3, hslot2, -, -, -, -⟩ :=
    resolveLabels_shape cfg e lv lv' h
  have hj2' : 2 ≤ j := le_trans (intrinsic_ge_two cfg) hj1
  have hbase : base[j]? = lv[j]? := by
    rcases Nat.lt_or_ge j 3 with hj | hj
    · have hj0 : j = 2 := by omega
      subst hj0
      cases hroute : cfg.hasRouteMatchers with
      | false => exact hslot2 hroute
      | true => rw [intrinsic_of_route cfg hroute] at hj1; omega
    · exact hge3 j hj
  cases hst : Entry.field e "status" with
  | none =>
    rw [applyRelabels_getElem?_lt _ _ _ _ _ hj2]
    exact hbase
  | some s =>
    rw [applyRelabels_getElem?_lt _ _ _ _ _ hj2,
      List.getElem?_set_ne (by omega)]
    exact hbase

theorem resolveLabels_slot0 (cfg : NamespaceConfig) (e : Entry)
    (lv lv' : List String) (h : resolveLabels cfg e lv = some lv')
    (hlen : 0 < lv.length) :
    (e.field "request" = none → lv'[0]? = some "UNKNOWN") ∧
    (∀ req, e.field "request" = some req →
      lv'[0]? = (stringsSplit req ' ').head?) := by
  obtain ⟨base, rfl, hblen, -, -, h0none, h0some, -, -⟩ :=
    resolveLabels_shape cfg e lv lv' h
  have hoff : 0 < relabelLabelOffset cfg :=
    lt_of_lt_of_le (by omega) (le_trans (intrinsic_ge_two cfg) (offset_ge_intrinsic cfg))
  have hred : (applyRelabels e
      (match e.field "status" with
       | some s => base.set 1 s
       | none => base)
      (relabelLabelOffset cfg) cfg.relabelConfigs)[0]? = base[0]? := by
    cases hst : Entry.field e "status" with
    | none => rw [applyRelabels_getElem?_lt _ _ _ _ _ hoff]
    | some s =>
      rw [applyRelabels_getElem?_lt _ _ _ _ _ hoff,
        List.getElem?_set_ne (by omega)]
  exact ⟨fun habs => hred.trans (h0none habs hlen),
    fun req hreq => hred.trans (h0some req hreq hlen)⟩

theorem resolveLabels_slot1 (cfg : NamespaceConfig) (e : Entry)
    (lv lv' : List String) (h : resolveLabels cfg e lv = some lv')
    (hlen : 1 < lv.length) :
    (e.field "status" = none → lv'[1]? = some "0") ∧
    (∀ s, e.field "status" = some s → lv'[1]? = some s) := by
  obtain ⟨base, rfl, hblen, -, -, -, -, h1, -⟩ :=
    resolveLabels_shape cfg e lv lv' h
  have hoff : 1 < relabelLabelOffset cfg :=
    lt_of_lt_of_le (by omega) (le_trans (intrinsic_ge_two cfg) (offset_ge_intrinsic cfg))
  constructor
  · intro hst
    rw [hst, applyRelabels_getElem?_lt _ _ _ _ _ hoff]
    exact h1 hlen
  · intro s hst
    rw [hst, applyRelabels_getElem?_lt _ _ _ _ _ hoff,
      List.getElem?_set_eq_of_lt _ (by omega)]

theorem resolveLabels_relabelSlot (cfg : NamespaceConfig) (e : Entry)
    (lv lv' : List String) (hlen : lv.length = totalLabelCount cfg)
    (h : resolveLabels cfg e lv = some lv') :
    ∀ i (hi : i < cfg.relabelConfigs.length),
      lv'[relabelLabelOffset cfg + i]? =
        some (resolveRelabel e (cfg.relabelConfigs.get ⟨i, hi⟩)) := by
  obtain ⟨base, rfl, hblen, -, -, -, -, -, -⟩ :=
    resolveLabels_shape cfg e lv lv' h
  intro i hi
  have hle : relabelLabelOffset cfg + cfg.relabelConfigs.length ≤ lv.length := by
    rw [hlen]; unfold totalLabelCount relabelLabelOffset; omega
  cases hst : Entry.field e "status" with
  | none =>
    exact applyRelabels_getElem?_at cfg.relabelConfigs e base _ i hi
      (by rw [hblen]; exact hle)
  | some s =>
    exact applyRelabels_getElem?_at cfg.relabelConfigs e (base.set 1 s) _ i hi
      (by rw [List.length_set, hblen]; exact hle)

/-! ### Route matching: first match in declaration order -/

theorem firstRoute_eq_find (f : List String) (path : String)
    (hf : f.get? 1 = some path) :
    ∀ (pats : List (String → Bool)) (routes : List String),
      pats.length ≤ routes.length →
      firstRoute f pats routes =
        some ((((pats.zip routes).find? (fun pr => pr.1 path)).map
          (fun pr => pr.2)).getD "") := by
  intro pats
  induction pats with
  | nil => intro routes _; rfl
  | cons p ps ih =>
    intro routes hlen
    cases routes with
    | nil => simp at hlen
    | cons r rs =>
      simp only [firstRoute, hf]
      by_cases hp : p path
      · simp [hp, List.find?_cons_of_pos]
      · have hp' : p path = false := by simpa using hp
        simp only [hp', Bool.false_eq_true, if_false, List.tail_cons]
        rw [ih rs (by simpa using hlen)]
        simp [List.find?_cons_of_neg, hp']

theorem resolveLabels_success (cfg : NamespaceConfig) (e : Entry)
    (lv : List String) (req : String)
    (hreq : Entry.field e "request" = some req)
    (htok : 2 ≤ (stringsSplit req ' ').length)
    (hpar : cfg.compiledRouteRegexps.length ≤ cfg.routes.length) :
    ∃ lv', resolveLabels cfg e lv = some lv' := by
  unfold resolveLabels
  cases hsplit : stringsSplit req ' ' with
  | nil => rw [hsplit] at htok; simp at htok
  | cons m rest =>
    cases rest with
    | nil => rw [hsplit] at htok; simp at htok
    | cons b t =>
      have hf : (m :: b :: t).get? 1 = some b := rfl
      cases hroute : cfg.hasRouteMatchers with
      | false =>
        simp only [hreq, hsplit, hroute, Bool.false_eq_true, if_false]
        exact ⟨_, rfl⟩
      | true =>
        have hfr := firstRoute_eq_find (m :: b :: t) b hf
          cfg.compiledRouteRegexps cfg.routes hpar
        simp only [hreq, hsplit, hroute, if_true, hfr]
        exact ⟨_, rfl⟩

/-! ### Per-line and whole-run lemmas -/

theorem processLine_ops_labels (cfg : NamespaceConfig) (pf : String → Option ℚ)
    (lv : List String) (parsed : Except String Entry)
    (lv₂ : List String) (ops : List MetricOp)
    (h : processLine cfg pf lv parsed = some (lv₂, ops)) :
    ∀ op ∈ ops, op.labels = lv₂ := by
  cases parsed with
  | error msg =>
    simp only [processLine, Option.some.injEq, Prod.mk.injEq] at h
    rw [← h.2]
    intro op hop
    exact absurd hop (List.not_mem_nil op)
  | ok e =>
    simp only [processLine] at h
    cases hres : resolveLabels cfg e lv with
    | none => rw [hres] at h; exact Option.noConfusion h
    | some lvr =>
      rw [hres] at h
      simp only [Option.some.injEq, Prod.mk.injEq] at h
      rw [← h.1, ← h.2]
      exact dispatch_labels pf e lvr

theorem processLine_length (cfg : NamespaceConfig) (pf : String → Option ℚ)
    (lv : List String) (parsed : Except String Entry)
    (lv₂ : List String) (ops : List MetricOp)
    (h : processLine cfg pf lv parsed = some (lv₂, ops)) :
    lv₂.length = lv.length := by
  cases parsed with
  | error msg =>
    simp only [processLine, Option.some.injEq, Prod.mk.injEq] at h
    rw [← h.1]
  | ok e =>
    simp only [processLine] at h
    cases hres : resolveLabels cfg e lv with
    | none => rw [hres] at h; exact Option.noConfusion h
    | some lvr =>
      rw [hres] at h
      simp only [Option.some.injEq, Prod.mk.injEq] at h
      rw [← h.1]
      exact resolveLabels_length cfg e lv lvr hres

theorem processLine_static (cfg : NamespaceConfig) (pf : String → Option ℚ)
    (lv : List String) (parsed : Except String Entry)
    (lv₂ : List String) (ops : List MetricOp)
    (h : processLine cfg pf lv parsed = some (lv₂, ops))
    (j : Nat) (hj1 : intrinsicLabelCount cfg ≤ j) (hj2 : j < relabelLabelOffset cfg) :
    lv₂[j]? = lv[j]? := by
  cases parsed with
  | error msg =>
    simp only [processLine, Option.some.injEq, Prod.mk.injEq] at h
    rw [← h.1]
  | ok e =>
    simp only [processLine] at h
    cases hres : resolveLabels cfg e lv with
    | none => rw [hres] at h; exact Option.noConfusion h
    | some lvr =>
      rw [hres] at h
      simp only [Option.some.injEq, Prod.mk.injEq] at h
      rw [← h.1]
      exact resolveLabels_frame cfg e lv lvr hres j hj1 hj2

theorem runFrom_static (cfg : NamespaceConfig) (pf : String → Option ℚ)
    (lines : List (Except String Entry)) :
    ∀ (lv : List String),
      (∀ j, intrinsicLabelCount cfg ≤ j → j < relabelLabelOffset cfg →
        lv[j]? = cfg.orderedLabelValues[j - intrinsicLabelCount cfg]?) →
      ∀ op ∈ (runFrom cfg pf lv lines).1,
        ∀ j, intrinsicLabelCount cfg ≤ j → j < relabelLabelOffset cfg →
          op.labels[j]? = cfg.orderedLabelValues[j - intrinsicLabelCount cfg]? := by
  induction lines with
  | nil =>
    intro lv _ op hop
    exact absurd hop (List.not_mem_nil op)
  | cons l ls ih =>
    intro lv hinv op hop
    unfold runFrom at hop
    cases hpl : processLine cfg pf lv l with
    | none =>
      rw [hpl] at hop
      exact absurd hop (List.not_mem_nil op)
    | some p =>
      obtain ⟨lv₂, ops⟩ := p
      rw [hpl] at hop
      simp only [List.mem_append] at hop
      have hinv₂ : ∀ j, intrinsicLabelCount cfg ≤ j → j < relabelLabelOffset cfg →
          lv₂[j]? = cfg.orderedLabelValues[j - intrinsicLabelCount cfg]? := by
        intro j hj1 hj2
        rw [processLine_static cfg pf lv l lv₂ ops hpl j hj1 hj2]
        exact hinv j hj1 hj2
      rcases hop with hop | hop
      · intro j hj1 hj2
        rw [processLine_ops_labels cfg pf lv l lv₂ ops hpl op hop]
        exact hinv₂ j hj1 hj2
      · exact ih lv₂ hinv₂ op hop

theorem initial_static (cfg : NamespaceConfig) :
    ∀ j, intrinsicLabelCount cfg ≤ j → j < relabelLabelOffset cfg →
      (initialLabelValues cfg)[j]? =
        cfg.orderedLabelValues[j - intrinsicLabelCount cfg]? := by
  intro j hj1 hj2
  unfold initialLabelValues
  have hjk : j = intrinsicLabelCount cfg + (j - intrinsicLabelCount cfg) := by omega
  rw [hjk, fillStatic_getElem?_at cfg.orderedLabelValues _ _ _
    (by unfold relabelLabelOffset at hj2; omega)
    (by simp [totalLabelCount]; omega)]
  have h2 : intrinsicLabelCount cfg + (j - intrinsicLabelCount cfg) -
      intrinsicLabelCount cfg = j - intrinsicLabelCount cfg := by omega
  rw [h2]

theorem initial_length (cfg : NamespaceConfig) :
    (initialLabelValues cfg).length = totalLabelCount cfg := by
  unfold initialLabelValues
  rw [fillStatic_length, List.length_replicate]

theorem metricLabels_length (cfg : NamespaceConfig) :
    (metricLabels cfg).length =
      2 + (if cfg.hasRouteMatchers then 1 else 0) +
        cfg.orderedLabelNames.length + cfg.relabelConfigs.length := by
  unfold metricLabels
  cases cfg.hasRouteMatchers <;> simp <;> omega

end NginxLog

namespace NginxLog

/-! ### Claim theorems -/

/-- C1: the claim says that on a line whose parsed fields contain no
`request` field, with route rules configured, the route slot (position 2) is
explicitly reset to the empty string.  The code resets slot 2 only inside the
`request`-present branch, so the slot inherits the route computed for the
previous line: after `GET /api/v1` (route `"api"`), a request-less line is
dispatched with route label `"api"` instead of `""`. -/
theorem route_slot_stale_on_missing_request :
    run cfgStaleRoute pfNone
      [Except.ok [("request", "GET /api/v1 HTTP/1.1")],
       Except.ok [("status", "500")]] =
      ([⟨Metric.countTotal, ["GET", "0", "api"], 1⟩,
        ⟨Metric.countTotal, ["UNKNOWN", "500", "api"], 1⟩], false) := rfl

/-- C2: the claim says a present-but-malformed `request` field (fewer than
two space-delimited tokens) is processed without crashing when route rules
are configured.  The code reads `f[1]` unconditionally inside the route loop,
which panics on a one-token request (`strings.Split("GET", " ") = ["GET"]`),
killing the ingestor: the line's own metrics and those of every later line on
the stream are lost. -/
theorem single_token_request_kills_ingestor :
    processLine cfgPanic pfNone (initialLabelValues cfgPanic)
        (Except.ok [("request", "GET")]) = none ∧
    run cfgPanic pfNone
      [Except.ok [("request", "GET /x HTTP/1.1")],
       Except.ok [("request", "GET")],
       Except.ok [("request", "GET /y HTTP/1.1")]] =
      ([⟨Metric.countTotal, ["GET", "0", "api"], 1⟩], true) := ⟨rfl, rfl⟩

/-- C3: the ordered label-name list registered for all six vectors is exactly
`["method", "status"]`, then `"request_uri"` if and only if at least one
route rule is configured, then the static label names in declared order, then
the relabel target labels in declared order. -/
theorem metric_label_order (cfg : NamespaceConfig) :
    metricLabels cfg =
      ["method", "status"]
        ++ (if cfg.routes = [] then [] else ["request_uri"])
        ++ cfg.orderedLabelNames
        ++ cfg.relabelConfigs.map (fun r => r.targetLabel) := by
  unfold metricLabels NamespaceConfig.hasRouteMatchers
  cases hr : cfg.routes <;> simp

/-- C4: when the static label names and values have equal length, the label
vector allocated by the ingestor has exactly the arity of the registered
vectors (`totalLabelCount`, a function of the configuration alone, computed
before any line), and per-line processing never changes the vector's
length. -/
theorem label_vector_arity_fixed (cfg : NamespaceConfig) (pf : String → Option ℚ)
    (h : cfg.orderedLabelNames.length = cfg.orderedLabelValues.length) :
    (initialLabelValues cfg).length = (metricLabels cfg).length ∧
    totalLabelCount cfg = (metricLabels cfg).length ∧
    (∀ lv parsed lv₂ ops, processLine cfg pf lv parsed = some (lv₂, ops) →
      lv₂.length = lv.length) := by
  have harity : totalLabelCount cfg = (metricLabels cfg).length := by
    rw [metricLabels_length cfg]
    unfold totalLabelCount intrinsicLabelCount
    cases cfg.hasRouteMatchers <;> simp <;> omega
  exact ⟨(initial_length cfg).trans harity, harity,
    fun lv parsed lv₂ ops hp => processLine_length cfg pf lv parsed lv₂ ops hp⟩

/-- Witness for C4 at a configuration with one static label, one relabel rule
and one route rule. -/
theorem label_vector_arity_fixed_witness :
    cfgArity.orderedLabelNames.length = cfgArity.orderedLabelValues.length ∧
    ((initialLabelValues cfgArity).length = (metricLabels cfgArity).length ∧
      totalLabelCount cfgArity = (metricLabels cfgArity).length ∧
      (∀ lv parsed lv₂ ops,
        processLine cfgArity pfNone lv parsed = some (lv₂, ops) →
        lv₂.length = lv.length)) :=
  ⟨rfl, label_vector_arity_fixed cfgArity pfNone rfl⟩

/-- C5: a relabel rule resolves to `""` when its source field is absent, to
`"other"` when the field is present but not in a configured whitelist, and to
the raw value otherwise; and the i-th rule's resolved value lands in slot
`relabelLabelOffset + i` of the label vector. -/
theorem relabel_resolution (cfg : NamespaceConfig) (e : Entry)
    (lv lv' : List String) (hlen : lv.length = totalLabelCount cfg)
    (h : resolveLabels cfg e lv = some lv') :
    (∀ c : RelabelConfig,
      (Entry.field e c.sourceValue = none → resolveRelabel e c = "") ∧
      (∀ v, Entry.field e c.sourceValue = some v → c.whitelistExists = true →
        c.whitelist.contains v = false → resolveRelabel e c = "other") ∧
      (∀ v, Entry.field e c.sourceValue = some v →
        (c.whitelistExists = false ∨ c.whitelist.contains v = true) →
        resolveRelabel e c = v)) ∧
    (∀ i (hi : i < cfg.relabelConfigs.length),
      lv'[relabelLabelOffset cfg + i]? =
        some (resolveRelabel e (cfg.relabelConfigs.get ⟨i, hi⟩))) := by
  constructor
  · intro c
    refine ⟨?_, ?_, ?_⟩
    · intro habs
      simp [resolveRelabel, habs]
    · intro v hv hwl hnc
      simp only [resolveRelabel, hv, hwl, hnc]
      simp
    · intro v hv hcase
      rcases hcase with hw | hc
      · simp only [resolveRelabel, hv, hw]
        simp
      · simp only [resolveRelabel, hv, hc]
        simp
  · exact resolveLabels_relabelSlot cfg e lv lv' hlen h

/-- Witness for C5: value `"c"` against whitelist `{"a","b"}` collapses to
`"other"`, and that value lands in the rule's slot. -/
theorem relabel_resolution_witness :
    resolveRelabel ([("remote_user", "c")] : Entry)
        ⟨"user", "remote_user", true, ["a", "b"]⟩ = "other" ∧
    ((["UNKNOWN", "0", "other"] : List String))[2]? =
      some (resolveRelabel ([("remote_user", "c")] : Entry)
        (cfgRelabel.relabelConfigs.get ⟨0, by decide⟩)) := by
  have h := relabel_resolution cfgRelabel [("remote_user", "c")]
    (initialLabelValues cfgRelabel) ["UNKNOWN", "0", "other"] rfl rfl
  exact ⟨(h.1 ⟨"user", "remote_user", true, ["a", "b"]⟩).2.1 "c" rfl rfl rfl,
    h.2 0 (by decide)⟩

/-- C6: with route rules configured and a request field of at least two
tokens, the compiled patterns are evaluated against the second token in
declaration order, the route slot receives the name of the first matching
rule (`List.find?` over the zipped pattern/name lists), and the empty string
when none matches. -/
theorem route_first_match_wins (cfg : NamespaceConfig) (e : Entry)
    (lv : List String) (req path : String)
    (hreq : Entry.field e "request" = some req)
    (hpath : (stringsSplit req ' ').get? 1 = some path)
    (hroute : cfg.hasRouteMatchers = true)
    (hlen : lv.length = totalLabelCount cfg)
    (hpar : cfg.compiledRouteRegexps.length ≤ cfg.routes.length) :
    (resolveLabels cfg e lv).bind (fun l => l[2]?) =
      some ((((cfg.compiledRouteRegexps.zip cfg.routes).find?
        (fun pr => pr.1 path)).map (fun pr => pr.2)).getD "") := by
  have htok : 2 ≤ (stringsSplit req ' ').length := by
    cases hs : stringsSplit req ' ' with
    | nil => rw [hs] at hpath; simp at hpath
    | cons a l =>
      cases l with
      | nil => rw [hs] at hpath; simp at hpath
      | cons b t => simp [hs]
  obtain ⟨lv', hsucc⟩ := resolveLabels_success cfg e lv req hreq htok hpar
  rw [hsucc]
  show lv'[2]? = _
  obtain ⟨base, rfl, hblen, -, -, -, -, -, hslot2⟩ :=
    resolveLabels_shape cfg e lv lv' hsucc
  have h2len : 2 < lv.length := by
    rw [hlen]
    unfold totalLabelCount
    have := intrinsic_of_route cfg hroute
    omega
  have hb2 := hslot2 hroute req hreq h2len
  rw [firstRoute_eq_find _ path hpath _ _ hpar] at hb2
  have hoff2 : 2 < relabelLabelOffset cfg := by
    unfold relabelLabelOffset
    have := intrinsic_of_route cfg hroute
    omega
  cases hst : Entry.field e "status" with
  | none =>
    rw [applyRelabels_getElem?_lt _ _ _ _ _ hoff2]
    exact hb2
  | some s =>
    rw [applyRelabels_getElem?_lt _ _ _ _ _ hoff2,
      List.getElem?_set_ne (by omega)]
    exact hb2

/-- Witness for C6: two rules whose patterns both match; the first (route
`"api"`) wins. -/
theorem route_first_match_wins_witness :
    (resolveLabels cfgRoutes [("request", "GET /api/v1 HTTP/1.1")]
        (initialLabelValues cfgRoutes)).bind (fun l => l[2]?) = some "api" := by
  have h := route_first_match_wins cfgRoutes
    [("request", "GET /api/v1 HTTP/1.1")] (initialLabelValues cfgRoutes)
    "GET /api/v1 HTTP/1.1" "/api/v1" rfl rfl rfl (initial_length cfgRoutes)
    (by decide)
  simpa using h

/-- C7 counterexample: the claim says the method slot is `"UNKNOWN"` when the
request field is absent or malformed; but for the present-but-malformed
one-token request `"GET"` the code stores the first token `"GET"`, not
`"UNKNOWN"` (with no route rules configured, so no panic occurs). -/
theorem method_malformed_counterexample :
    resolveLabels cfgPlain [("request", "GET")] (initialLabelValues cfgPlain) =
      some ["GET", "0"] ∧ "GET" ≠ "UNKNOWN" := ⟨rfl, by decide⟩

/-- C7 as amended: the method slot equals the first space-delimited token of
the request field whenever that field is present (malformed or not, provided
processing completes), and `"UNKNOWN"` only when the field is absent; the
status slot equals the status field's value when present and `"0"` when
absent. -/
theorem method_status_slots (cfg : NamespaceConfig) (e : Entry)
    (lv lv' : List String) (hlen : lv.length = totalLabelCount cfg)
    (h : resolveLabels cfg e lv = some lv') :
    (Entry.field e "request" = none → lv'[0]? = some "UNKNOWN") ∧
    (∀ req, Entry.field e "request" = some req →
      lv'[0]? = (stringsSplit req ' ').head?) ∧
    (Entry.field e "status" = none → lv'[1]? = some "0") ∧
    (∀ s, Entry.field e "status" = some s → lv'[1]? = some s) := by
  have h0 : 0 < lv.length := by
    rw [hlen]; unfold totalLabelCount; have := intrinsic_ge_two cfg; omega
  have h1 : 1 < lv.length := by
    rw [hlen]; unfold totalLabelCount; have := intrinsic_ge_two cfg; omega
  obtain ⟨hs0a, hs0b⟩ := resolveLabels_slot0 cfg e lv lv' h h0
  obtain ⟨hs1a, hs1b⟩ := resolveLabels_slot1 cfg e lv lv' h h1
  exact ⟨hs0a, hs0b, hs1a, hs1b⟩

/-- Witness for C7 (amended): request `"GET /foo HTTP/1.1"` gives method
`"GET"`, status `"200"` gives status slot `"200"`. -/
theorem method_status_slots_witness :
    ((["GET", "200"] : List String))[0]? = some "GET" ∧
    ((["GET", "200"] : List String))[1]? = some "200" := by
  have h := method_status_slots cfgPlain
    [("request", "GET /foo HTTP/1.1"), ("status", "200")]
    (initialLabelValues cfgPlain) ["GET", "200"] rfl rfl
  exact ⟨(h.2.1 "GET /foo HTTP/1.1" rfl).trans rfl, h.2.2.2 "200" rfl⟩

/-- C8: on a parse error the iteration mutates no metric, leaves the label
buffer untouched, does not die, and the rest of the stream is processed
exactly as if the failing line had not been there. -/
theorem parse_error_skips_line (cfg : NamespaceConfig) (pf : String → Option ℚ)
    (lv : List String) (msg : String) :
    processLine cfg pf lv (Except.error msg) = some (lv, []) ∧
    ∀ ls, runFrom cfg pf lv (Except.error msg :: ls) = runFrom cfg pf lv ls := by
  refine ⟨rfl, fun ls => ?_⟩
  simp [runFrom, processLine]

/-- C9: for a successfully parsed line, the count-total increment is
unconditional, and each of bytes-total, the two upstream-time observations
and the two response-time observations occurs (with the parsed value) if and
only if its own numeric field parses — independent of the other fields. -/
theorem dispatch_independence (pf : String → Option ℚ) (e : Entry)
    (lv : List String) :
    MetricOp.mk Metric.countTotal lv 1 ∈ dispatch pf e lv ∧
    (∀ q, MetricOp.mk Metric.bytesTotal lv q ∈ dispatch pf e lv ↔
      Entry.floatField pf e "body_bytes_sent" = some q) ∧
    (∀ q, MetricOp.mk Metric.upstreamSeconds lv q ∈ dispatch pf e lv ↔
      Entry.floatField pf e "upstream_response_time" = some q) ∧
    (∀ q, MetricOp.mk Metric.upstreamSecondsHist lv q ∈ dispatch pf e lv ↔
      Entry.floatField pf e "upstream_response_time" = some q) ∧
    (∀ q, MetricOp.mk Metric.responseSeconds lv q ∈ dispatch pf e lv ↔
      Entry.floatField pf e "request_time" = some q) ∧
    (∀ q, MetricOp.mk Metric.responseSecondsHist lv q ∈ dispatch pf e lv ↔
      Entry.floatField pf e "request_time" = some q) := by
  cases h1 : Entry.floatField pf e "body_bytes_sent" <;>
    cases h2 : Entry.floatField pf e "upstream_response_time" <;>
      cases h3 : Entry.floatField pf e "request_time" <;>
        simp [dispatch, h1, h2, h3, MetricOp.mk.injEq, eq_comm]

/-- C10: in every run, every metric mutation carries, at each static-label
position (between `intrinsicLabelCount` and `relabelLabelOffset`), exactly
the configured ordered static label value: those slots are filled before the
first line and no per-line write ever touches them. -/
theorem static_slots_constant (cfg : NamespaceConfig) (pf : String → Option ℚ)
    (lines : List (Except String Entry)) (op : MetricOp)
    (hop : op ∈ (run cfg pf lines).1)
    (j : Nat) (hj1 : intrinsicLabelCount cfg ≤ j) (hj2 : j < relabelLabelOffset cfg) :
    op.labels[j]? = cfg.orderedLabelValues[j - intrinsicLabelCount cfg]? :=
  runFrom_static cfg pf lines (initialLabelValues cfg)
    (initial_static cfg) op hop j hj1 hj2

/-- Witness for C10: a one-line run over a namespace with the static label
value `"myapp"`; the emitted count op carries `"myapp"` at slot 2. -/
theorem static_slots_constant_witness :
    (MetricOp.mk Metric.countTotal ["UNKNOWN", "0", "myapp"] 1).labels[2]? =
      cfgStatic.orderedLabelValues[2 - intrinsicLabelCount cfgStatic]? :=
  static_slots_constant cfgStatic pfNone [Except.ok ([] : Entry)]
    ⟨Metric.countTotal, ["UNKNOWN", "0", "myapp"], 1⟩ (by decide)
    2 (by decide) (by decide)

end NginxLog
